import Mathlib

/-!
Shallow embedding of the Organization Management Service core
(`app/services/org_service.py`, `app/db.py`, `app/models.py`) and proofs of
the specification's claims about it.

The persistent store is modelled as an explicit state: a list of
organization registry records, a list of admin records, a finite map from
collection name to the documents it holds, and an id counter standing in
for MongoDB ObjectId generation.  Each operation threads this state and
additionally emits a write-event trace, so that ordering properties of the
rename protocol can be stated.  Python exceptions (`HTTPException`) are
modelled by an `Except`-valued result paired with the state at the moment
the exception is raised.
-/

namespace OrgMgmt

/-! ## Name normalization: Python `s.strip().lower()` -/

/-- Python `str.strip()` on the character list: drop leading and trailing
whitespace.  Trailing whitespace is removed by reversing, dropping, and
reversing back. -/
def pyStripList (l : List Char) : List Char :=
  ((l.dropWhile Char.isWhitespace).reverse.dropWhile Char.isWhitespace).reverse

/-- Python `str.strip()`. -/
def pyStrip (s : String) : String := ⟨pyStripList s.data⟩

/-- Python `str.lower()` (basic-latin case mapping, as in the source's
ASCII organization names). -/
def pyLower (s : String) : String := ⟨s.data.map Char.toLower⟩

/-- `payload.organization_name.strip().lower()`, the normalization applied
by every service operation before touching the registry. -/
def normalize (s : String) : String := pyLower (pyStrip s)

/-! ### Character-level facts -/

theorem char_toNat_ofNat_interval (n : Nat) (h1 : 65 ≤ n) (h2 : n ≤ 90) :
    (Char.ofNat (n + 32)).toNat = n + 32 := by
  interval_cases n <;> decide

theorem char_not_whitespace_of_ge (d : Char) (h : 65 ≤ d.toNat) :
    d.isWhitespace = false := by
  have hne : ∀ c : Char, c.toNat < 65 → ¬d = c := by
    intro c hc hEq
    rw [hEq] at h
    omega
  simp only [Char.isWhitespace, Bool.or_eq_false_iff, decide_eq_false_iff_not]
  exact ⟨⟨⟨hne ' ' (by decide), hne '\t' (by decide)⟩, hne '\r' (by decide)⟩,
    hne '\n' (by decide)⟩

theorem char_toLower_eq (c : Char) :
    c.toLower = if c.toNat ≥ 65 ∧ c.toNat ≤ 90 then Char.ofNat (c.toNat + 32) else c := rfl

theorem char_toLower_toLower (c : Char) : c.toLower.toLower = c.toLower := by
  rw [char_toLower_eq c]
  by_cases h : c.toNat ≥ 65 ∧ c.toNat ≤ 90
  · rw [if_pos h, char_toLower_eq]
    have ht : (Char.ofNat (c.toNat + 32)).toNat = c.toNat + 32 :=
      char_toNat_ofNat_interval c.toNat h.1 h.2
    rw [if_neg]
    rw [ht]
    omega
  · rw [if_neg h, char_toLower_eq, if_neg h]

theorem char_isWhitespace_toLower (c : Char) :
    c.toLower.isWhitespace = c.isWhitespace := by
  rw [char_toLower_eq c]
  by_cases h : c.toNat ≥ 65 ∧ c.toNat ≤ 90
  · rw [if_pos h]
    have ht : (Char.ofNat (c.toNat + 32)).toNat = c.toNat + 32 :=
      char_toNat_ofNat_interval c.toNat h.1 h.2
    rw [char_not_whitespace_of_ge _ (by omega), char_not_whitespace_of_ge _ h.1]
  · rw [if_neg h]

/-! ### Idempotence of normalization -/

theorem dropWhile_dropWhile_self (p : α → Bool) (l : List α) :
    (l.dropWhile p).dropWhile p = l.dropWhile p := by
  induction l with
  | nil => rfl
  | cons x xs ih =>
    rw [List.dropWhile_cons]
    by_cases h : p x = true
    · rw [if_pos h]; exact ih
    · rw [if_neg h, List.dropWhile_cons, if_neg h]

/-- Drop trailing whitespace only. -/
def stripR (m : List Char) : List Char :=
  (m.reverse.dropWhile Char.isWhitespace).reverse

theorem stripR_stripR (m : List Char) : stripR (stripR m) = stripR m := by
  unfold stripR
  rw [List.reverse_reverse, dropWhile_dropWhile_self]

theorem pyStripList_eq (l : List Char) :
    pyStripList l = stripR (l.dropWhile Char.isWhitespace) := rfl

theorem dropWhile_stripR (m : List Char)
    (h : m.dropWhile Char.isWhitespace = m) :
    (stripR m).dropWhile Char.isWhitespace = stripR m := by
  cases m with
  | nil => rfl
  | cons x xs =>
    have hx : Char.isWhitespace x = false := by
      have := (List.dropWhile_eq_self_iff).mp h (by simp)
      simpa using this
    unfold stripR
    rw [List.reverse_cons, List.dropWhile_append]
    by_cases he : ((xs.reverse.dropWhile Char.isWhitespace).isEmpty) = true
    · rw [if_pos he, List.dropWhile_cons, hx]
      simp [List.dropWhile_cons, hx]
    · rw [if_neg he, List.reverse_append]
      simp only [List.reverse_cons, List.reverse_nil, List.nil_append, List.cons_append,
        List.dropWhile_cons, hx]
      simp

theorem pyStripList_idem (l : List Char) :
    pyStripList (pyStripList l) = pyStripList l := by
  rw [pyStripList_eq, pyStripList_eq,
    dropWhile_stripR (l.dropWhile Char.isWhitespace) (dropWhile_dropWhile_self _ l),
    stripR_stripR]

theorem pyStripList_map_toLower (l : List Char) :
    pyStripList (l.map Char.toLower) = (pyStripList l).map Char.toLower := by
  have hpred : ∀ m : List Char,
      m.dropWhile (Char.isWhitespace ∘ Char.toLower) = m.dropWhile Char.isWhitespace := by
    intro m
    congr 1
    funext c
    exact char_isWhitespace_toLower c
  unfold pyStripList
  rw [List.dropWhile_map, hpred, ← List.map_reverse, List.dropWhile_map, hpred,
    ← List.map_reverse]

theorem map_toLower_idem (l : List Char) :
    (l.map Char.toLower).map Char.toLower = l.map Char.toLower := by
  rw [List.map_map]
  congr 1
  funext c
  exact char_toLower_toLower c

theorem normalize_idem (s : String) : normalize (normalize s) = normalize s := by
  show (⟨(pyStripList ((pyStripList s.data).map Char.toLower)).map Char.toLower⟩ : String)
      = ⟨(pyStripList s.data).map Char.toLower⟩
  rw [pyStripList_map_toLower, map_toLower_idem, pyStripList_idem]

/-! ## Data model (`app/models.py`, MongoDB documents) -/

/-- `OrgCreate` request body (`app/models.py`). -/
structure OrgCreate where
  organization_name : String
  email : String
  password : String
deriving Repr, DecidableEq

/-- `OrgUpdate` request body (`app/models.py`): `email` and `password` are
`Optional[...] = None`. -/
structure OrgUpdate where
  organization_name : String
  email : Option String
  password : Option String
deriving Repr, DecidableEq

/-- The verified bearer-token claim handed to protected routes
(`get_current_admin` in `app/auth.py`): `{"admin_id": ..., "org_id": ...}`. -/
structure Claim where
  admin_id : Nat
  org_id : String
deriving Repr, DecidableEq

/-- Modelled from the spec: the Credential Store adapter's password hashing
(`app/utils.py` is not part of the supplied sources; §2 of the spec only
requires that admin passwords are stored hashed).  An injective tagging
function stands in for the hash. -/
def hash_password (p : String) : String := "bcrypt$" ++ p

/-- A document of the `organizations` collection (`org_doc` in
`create_organization`; the `created_at` timestamp carries no claim-relevant
information and is not modelled). -/
structure OrgRec where
  oid : Nat
  organization_name : String
  collection_name : String
  admin_id : Nat
deriving Repr, DecidableEq

/-- A document of the `admins` collection (`admin_doc` in
`create_organization`). -/
structure AdminRec where
  aid : Nat
  email : String
  password : String
  role : String
  organization : String
deriving Repr, DecidableEq

/-- The master database: the two metadata collections, the dynamically
named per-tenant data collections (name ↦ opaque documents), and a counter
standing in for ObjectId generation. -/
structure DB where
  organizations : List OrgRec
  admins : List AdminRec
  collections : String → Option (List Nat)
  nextId : Nat

/-- Write events, recorded in the order the corresponding database calls
are awaited by the Python code. -/
inductive Ev where
  | createColl (name : String)
  | dropColl (name : String)
  | copyOut (src dst : String)
  | insertAdmin (aid : Nat)
  | insertOrg (oid : Nat)
  | updateOrgMeta (oid : Nat) (newName : String)
  | updateAdminLink (aid : Nat) (newName : String)
  | updateAdminCreds (aid : Nat)
  | deleteAdmin (aid : Nat)
  | deleteOrg (name : String)
deriving Repr, DecidableEq

/-- Full store state: database plus emitted write trace. -/
structure St where
  db : DB
  trace : List Ev

/-- `HTTPException`s raised by the service, plus the `TypeError` Python
would raise if the final re-fetch in `update_organization` found nothing. -/
inductive Err where
  | badRequest (detail : String)
  | notFound (detail : String)
  | forbidden (detail : String)
  | noneTypeError
deriving Repr, DecidableEq

/-- `db.organizations.find_one({"organization_name": n})`: first matching
document in natural order. -/
def findOrg (db : DB) (n : String) : Option OrgRec :=
  db.organizations.find? (fun o => o.organization_name == n)

/-- `db.admins.find_one({"_id": a})`. -/
def findAdminById (db : DB) (a : Nat) : Option AdminRec :=
  db.admins.find? (fun x => x.aid == a)

/-- Mongo `update_one`: apply `f` to the first document matching `p`. -/
def updateFirst (p : α → Bool) (f : α → α) : List α → List α
  | [] => []
  | x :: xs => if p x then f x :: xs else x :: updateFirst p f xs

/-! ## Collection Store (`app/db.py`) -/

/-- `create_org_collection`: create `org_<name>` only if absent. -/
def create_org_collection (org_name : String) (s : St) : String × St :=
  let coll_name := "org_" ++ org_name
  match s.db.collections coll_name with
  | some _ => (coll_name, s)
  | none =>
      (coll_name,
        { db := { s.db with
            collections := fun n => if n = coll_name then some [] else s.db.collections n },
          trace := s.trace ++ [Ev.createColl coll_name] })

/-- `drop_org_collection`: drop `org_<name>` only if present; returns `True`. -/
def drop_org_collection (org_name : String) (s : St) : Bool × St :=
  let coll_name := "org_" ++ org_name
  match s.db.collections coll_name with
  | none => (true, s)
  | some _ =>
      (true,
        { db := { s.db with
            collections := fun n => if n = coll_name then none else s.db.collections n },
          trace := s.trace ++ [Ev.dropColl coll_name] })

/-- `rename_and_sync_collection`: if the old collection is absent, succeed
without touching anything; otherwise `$out` every document of the old
collection into the new one (creating or replacing it), then drop the old
collection. -/
def rename_and_sync_collection (old_org_name new_org_name : String) (s : St) : St :=
  let old_coll := "org_" ++ old_org_name
  let new_coll := "org_" ++ new_org_name
  match s.db.collections old_coll with
  | none => s
  | some docs =>
      let s1 : St :=
        { db := { s.db with
            collections := fun n => if n = new_coll then some docs else s.db.collections n },
          trace := s.trace ++ [Ev.copyOut old_coll new_coll] }
      { db := { s1.db with
          collections := fun n => if n = old_coll then none else s1.db.collections n },
        trace := s1.trace ++ [Ev.dropColl old_coll] }

/-! ## Tenant Lifecycle Manager (`app/services/org_service.py`) -/

/-- `OrganizationService.create_organization`. -/
def create_organization (payload : OrgCreate) (s : St) :
    Except Err (String × String × Nat) × St :=
  let org_name := normalize payload.organization_name
  match findOrg s.db org_name with
  | some _ => (.error (.badRequest "Organization already exists"), s)
  | none =>
      let collection_name := "org_" ++ org_name
      let s := (create_org_collection org_name s).2
      let aid := s.db.nextId
      let admin : AdminRec :=
        { aid := aid, email := payload.email, password := hash_password payload.password,
          role := "admin", organization := org_name }
      let s : St :=
        { db := { s.db with admins := s.db.admins ++ [admin], nextId := s.db.nextId + 1 },
          trace := s.trace ++ [Ev.insertAdmin aid] }
      let oid := s.db.nextId
      let org : OrgRec :=
        { oid := oid, organization_name := org_name, collection_name := collection_name,
          admin_id := aid }
      let s : St :=
        { db := { s.db with
                  organizations := s.db.organizations ++ [org],
                  nextId := s.db.nextId + 1 },
          trace := s.trace ++ [Ev.insertOrg oid] }
      (.ok (org_name, collection_name, aid), s)

/-- `OrganizationService.get_organization`. -/
def get_organization (organization_name : String) (s : St) : Except Err OrgRec × St :=
  match findOrg s.db (normalize organization_name) with
  | none => (.error (.notFound "Organization not found"), s)
  | some org => (.ok org, s)

/-- Python truthiness of an optional string field (`None` and `""` are
falsy). -/
def truthy : Option String → Bool
  | none => false
  | some v => !v.isEmpty

/-- The `$set` document built as `update_fields` in step 3 of
`update_organization`, applied to an admin document. -/
def creds_fields (payload : OrgUpdate) (a : AdminRec) : AdminRec :=
  let a := if truthy payload.email then { a with email := payload.email.getD "" } else a
  if truthy payload.password then
    { a with password := hash_password (payload.password.getD "") }
  else a

/-- Step 3 of `update_organization`: one `update_one` on the admin record
when at least one credential field is truthy. -/
def apply_creds (ca : Claim) (payload : OrgUpdate) (s : St) : St :=
  if truthy payload.email || truthy payload.password then
    { db := { s.db with
        admins := updateFirst (fun a => a.aid == ca.admin_id) (creds_fields payload) s.db.admins },
      trace := s.trace ++ [Ev.updateAdminCreds ca.admin_id] }
  else s

/-- Step 4 of `update_organization`: re-fetch the organization by (possibly
new) name; a missing result would make the Python code dereference `None`. -/
def finish_update (name : String) (s : St) : Except Err OrgRec × St :=
  match findOrg s.db name with
  | some org => (.ok org, s)
  | none => (.error .noneTypeError, s)

/-- `OrganizationService.update_organization`.  The Python guard is
`if new_org_name != target_org_name`; the rename branch is the `then`
branch here as well. -/
def update_organization (ca : Claim) (payload : OrgUpdate) (s : St) :
    Except Err OrgRec × St :=
  let target := ca.org_id
  match findOrg s.db target with
  | none => (.error (.notFound "Organization not found"), s)
  | some org =>
      let new_name := normalize payload.organization_name
      if new_name ≠ target then
        match findOrg s.db new_name with
        | some _ => (.error (.badRequest "New organization name already exists"), s)
        | none =>
            let new_coll := "org_" ++ new_name
            let s : St :=
              { db := { s.db with
                  organizations := updateFirst (fun o => o.oid == org.oid)
                    (fun o => { o with
                                organization_name := new_name,
                                collection_name := new_coll }) s.db.organizations },
                trace := s.trace ++ [Ev.updateOrgMeta org.oid new_name] }
            let s : St :=
              { db := { s.db with
                  admins := updateFirst (fun a => a.aid == ca.admin_id)
                    (fun a => { a with organization := new_name }) s.db.admins },
                trace := s.trace ++ [Ev.updateAdminLink ca.admin_id new_name] }
            let s := rename_and_sync_collection target new_name s
            let s := apply_creds ca payload s
            finish_update new_name s
      else
        let s := apply_creds ca payload s
        finish_update target s

/-- `OrganizationService.delete_organization`.  The authorization check
runs before the database is consulted. -/
def delete_organization (organization_name : String) (ca : Claim) (s : St) :
    Except Err (String × String) × St :=
  if ca.org_id ≠ normalize organization_name then
    (.error (.forbidden "You are not authorized to delete this organization"), s)
  else
    let org_name := normalize organization_name
    match findOrg s.db org_name with
    | none => (.error (.notFound "Organization not found"), s)
    | some org =>
        let s := (drop_org_collection org_name s).2
        let s : St :=
          { db := { s.db with admins := s.db.admins.eraseP (fun a => a.aid == org.admin_id) },
            trace := s.trace ++ [Ev.deleteAdmin org.admin_id] }
        let s : St :=
          { db := { s.db with
              organizations := s.db.organizations.eraseP
                (fun o => o.organization_name == org_name) },
            trace := s.trace ++ [Ev.deleteOrg org_name] }
        (.ok ("deleted", org_name), s)

/-- The empty master database: fresh deployment before any request. -/
def st0 : St :=
  { db := { organizations := [], admins := [], collections := fun _ => none, nextId := 0 },
    trace := [] }

/-! ## Helper lemmas about the store primitives -/

theorem updateFirst_of_no_match {p : α → Bool} {f : α → α} {l : List α}
    (h : ∀ x ∈ l, ¬p x) : updateFirst p f l = l := by
  induction l with
  | nil => rfl
  | cons x xs ih =>
    unfold updateFirst
    rw [if_neg (h x (List.mem_cons_self x xs)), ih fun y hy => h y (List.mem_cons_of_mem x hy)]

theorem updateFirst_id {p : α → Bool} (l : List α) :
    updateFirst p (fun x => x) l = l := by
  induction l with
  | nil => rfl
  | cons x xs ih =>
    unfold updateFirst
    by_cases h : p x = true
    · rw [if_pos h]
    · rw [if_neg h, ih]

theorem mem_updateFirst {p : α → Bool} {f : α → α} {l : List α} {x : α}
    (h : x ∈ updateFirst p f l) : x ∈ l ∨ ∃ y ∈ l, p y ∧ x = f y := by
  induction l with
  | nil => simp [updateFirst] at h
  | cons z zs ih =>
    unfold updateFirst at h
    by_cases hz : p z = true
    · rw [if_pos hz] at h
      rcases List.mem_cons.mp h with h1 | h1
      · exact Or.inr ⟨z, List.mem_cons_self z zs, hz, h1⟩
      · exact Or.inl (List.mem_cons_of_mem z h1)
    · rw [if_neg hz] at h
      rcases List.mem_cons.mp h with h1 | h1
      · exact Or.inl (h1 ▸ List.mem_cons_self z zs)
      · rcases ih h1 with h2 | ⟨y, hy, hpy, hxy⟩
        · exact Or.inl (List.mem_cons_of_mem z h2)
        · exact Or.inr ⟨y, List.mem_cons_of_mem z hy, hpy, hxy⟩

theorem map_updateFirst_of_preserve {p : α → Bool} {f : α → α} {g : α → β}
    (hg : ∀ a, p a → g (f a) = g a) (l : List α) :
    (updateFirst p f l).map g = l.map g := by
  induction l with
  | nil => rfl
  | cons x xs ih =>
    unfold updateFirst
    by_cases h : p x = true
    · rw [if_pos h]
      simp [hg x h, ih]
    · rw [if_neg h]
      simp [ih]

theorem exists_updated_of_match {p : α → Bool} {f : α → α} {l : List α}
    (h : ∃ x ∈ l, p x) : ∃ z ∈ updateFirst p f l, ∃ y, p y ∧ z = f y := by
  induction l with
  | nil => simp at h
  | cons x xs ih =>
    unfold updateFirst
    by_cases hx : p x = true
    · rw [if_pos hx]
      exact ⟨f x, List.mem_cons_self _ _, x, hx, rfl⟩
    · rw [if_neg hx]
      rcases h with ⟨y, hy, hpy⟩
      rcases List.mem_cons.mp hy with h1 | h1
      · exact absurd (h1 ▸ hpy) hx
      · rcases ih ⟨y, h1, hpy⟩ with ⟨z, hz, hw⟩
        exact ⟨z, List.mem_cons_of_mem x hz, hw⟩

theorem map_updateFirst_subset {p : α → Bool} {f : α → α} {g : α → β} {c : β}
    (hf : ∀ y, p y → g (f y) = c) (l : List α) :
    ∀ z ∈ (updateFirst p f l).map g, z = c ∨ z ∈ l.map g := by
  intro z hz
  rcases List.mem_map.mp hz with ⟨x, hx, hgx⟩
  rcases mem_updateFirst hx with h1 | ⟨y, hy, hpy, hxy⟩
  · exact Or.inr (hgx ▸ List.mem_map_of_mem g h1)
  · exact Or.inl (by rw [← hgx, hxy, hf y hpy])

theorem nodup_map_updateFirst {p : α → Bool} {f : α → α} {g : α → β} {c : β}
    (hf : ∀ y, p y → g (f y) = c) {l : List α}
    (hc : c ∉ l.map g) (hn : (l.map g).Nodup) :
    ((updateFirst p f l).map g).Nodup := by
  induction l with
  | nil => simp [updateFirst]
  | cons x xs ih =>
    unfold updateFirst
    simp only [List.map_cons, List.nodup_cons, List.mem_cons, not_or] at hn hc
    by_cases hx : p x = true
    · rw [if_pos hx]
      simp only [List.map_cons, List.nodup_cons]
      exact ⟨by rw [hf x hx]; exact hc.2, hn.2⟩
    · rw [if_neg hx]
      simp only [List.map_cons, List.nodup_cons]
      refine ⟨fun hmem => ?_, ih hc.2 hn.2⟩
      rcases map_updateFirst_subset hf xs (g x) hmem with h1 | h1
      · exact hc.1 h1.symm
      · exact hn.1 h1

theorem find?_eraseP_eq_none {p : α → Bool} {l : List α}
    (h : l.countP p ≤ 1) : (l.eraseP p).find? p = none := by
  induction l with
  | nil => rfl
  | cons x xs ih =>
    by_cases hx : p x = true
    · rw [List.eraseP_cons_of_pos hx]
      rw [List.find?_eq_none]
      intro y hy
      rw [List.countP_cons_of_pos _ _ hx] at h
      have h0 : xs.countP p = 0 := by omega
      exact fun hpy => (List.countP_eq_zero.mp h0 y hy) hpy
    · rw [List.eraseP_cons_of_neg hx, List.find?_cons_of_neg _ hx]
      rw [List.countP_cons_of_neg _ _ hx] at h
      exact ih h

/-- The store state after step 2 of a rename: registry record and admin
tenant-link rewritten, data collections untouched. -/
def rename_meta_st (s : St) (oid aid : Nat) (new_name : String) : St :=
  { db := { s.db with
      organizations := updateFirst (fun o => o.oid == oid)
        (fun o => { o with
                    organization_name := new_name,
                    collection_name := "org_" ++ new_name }) s.db.organizations,
      admins := updateFirst (fun a => a.aid == aid)
        (fun a => { a with organization := new_name }) s.db.admins },
    trace := s.trace ++ [Ev.updateOrgMeta oid new_name, Ev.updateAdminLink aid new_name] }

theorem update_rename_eq (ca : Claim) (p : OrgUpdate) (s : St) (org : OrgRec)
    (h1 : findOrg s.db ca.org_id = some org)
    (hne : normalize p.organization_name ≠ ca.org_id)
    (h2 : findOrg s.db (normalize p.organization_name) = none) :
    update_organization ca p s =
      finish_update (normalize p.organization_name)
        (apply_creds ca p
          (rename_and_sync_collection ca.org_id (normalize p.organization_name)
            (rename_meta_st s org.oid ca.admin_id (normalize p.organization_name)))) := by
  simp only [update_organization, h1, if_pos hne, h2, rename_meta_st, List.append_assoc,
    List.cons_append, List.nil_append]

theorem update_same_eq (ca : Claim) (p : OrgUpdate) (s : St) (org : OrgRec)
    (h1 : findOrg s.db ca.org_id = some org)
    (heq : normalize p.organization_name = ca.org_id) :
    update_organization ca p s = finish_update ca.org_id (apply_creds ca p s) := by
  simp only [update_organization, h1, heq]
  rw [if_neg (fun hcon => hcon rfl)]

theorem update_notfound_eq (ca : Claim) (p : OrgUpdate) (s : St)
    (h : findOrg s.db ca.org_id = none) :
    update_organization ca p s = (.error (.notFound "Organization not found"), s) := by
  simp only [update_organization, h]

theorem update_rename_conflict_eq (ca : Claim) (p : OrgUpdate) (s : St)
    (org other : OrgRec)
    (h1 : findOrg s.db ca.org_id = some org)
    (hne : normalize p.organization_name ≠ ca.org_id)
    (h2 : findOrg s.db (normalize p.organization_name) = some other) :
    update_organization ca p s =
      (.error (.badRequest "New organization name already exists"), s) := by
  simp only [update_organization, h1, if_pos hne, h2]

theorem delete_forbidden_eq (n : String) (ca : Claim) (s : St)
    (h : ca.org_id ≠ normalize n) :
    delete_organization n ca s =
      (.error (.forbidden "You are not authorized to delete this organization"), s) := by
  simp only [delete_organization, if_pos h]

theorem updateFirst_congr {q : α → Bool} {f g : α → α}
    (h : ∀ a, f a = g a) (l : List α) :
    updateFirst q f l = updateFirst q g l := by
  induction l with
  | nil => rfl
  | cons x xs ih =>
    unfold updateFirst
    rw [h x, ih]

theorem create_org_collection_fields (n : String) (s : St) :
    (create_org_collection n s).2.db.organizations = s.db.organizations ∧
    (create_org_collection n s).2.db.admins = s.db.admins ∧
    (create_org_collection n s).2.db.nextId = s.db.nextId := by
  cases hc : s.db.collections ("org_" ++ n) <;> simp [create_org_collection, hc]

theorem create_absent_eq (payload : OrgCreate) (s : St)
    (h : findOrg s.db (normalize payload.organization_name) = none) :
    (create_organization payload s).1 =
        .ok (normalize payload.organization_name,
          "org_" ++ normalize payload.organization_name, s.db.nextId) ∧
    (create_organization payload s).2.db.organizations =
      s.db.organizations ++
        [{ oid := s.db.nextId + 1,
           organization_name := normalize payload.organization_name,
           collection_name := "org_" ++ normalize payload.organization_name,
           admin_id := s.db.nextId }] ∧
    (create_organization payload s).2.db.admins =
      s.db.admins ++
        [{ aid := s.db.nextId, email := payload.email,
           password := hash_password payload.password, role := "admin",
           organization := normalize payload.organization_name }] := by
  refine ⟨?_, ?_, ?_⟩ <;>
    · simp only [create_organization, h]
      cases hc : s.db.collections ("org_" ++ normalize payload.organization_name) <;>
        simp [create_org_collection, hc]

theorem create_present_eq (payload : OrgCreate) (s : St) (org : OrgRec)
    (h : findOrg s.db (normalize payload.organization_name) = some org) :
    create_organization payload s = (.error (.badRequest "Organization already exists"), s) := by
  simp only [create_organization, h]

theorem rename_and_sync_none (old_n new_n : String) (s : St)
    (h : s.db.collections ("org_" ++ old_n) = none) :
    rename_and_sync_collection old_n new_n s = s := by
  simp only [rename_and_sync_collection, h]

theorem rename_and_sync_some (old_n new_n : String) (s : St) (docs : List Nat)
    (h : s.db.collections ("org_" ++ old_n) = some docs) :
    rename_and_sync_collection old_n new_n s =
      { db := { s.db with collections := fun n =>
          if n = "org_" ++ old_n then none
          else if n = "org_" ++ new_n then some docs
          else s.db.collections n },
        trace := s.trace ++ [Ev.copyOut ("org_" ++ old_n) ("org_" ++ new_n),
          Ev.dropColl ("org_" ++ old_n)] } := by
  simp only [rename_and_sync_collection, h, List.append_assoc, List.cons_append,
    List.nil_append]

theorem rename_and_sync_fields (old_n new_n : String) (s : St) :
    (rename_and_sync_collection old_n new_n s).db.organizations = s.db.organizations ∧
    (rename_and_sync_collection old_n new_n s).db.admins = s.db.admins ∧
    (rename_and_sync_collection old_n new_n s).db.nextId = s.db.nextId := by
  cases hc : s.db.collections ("org_" ++ old_n) <;>
    simp [rename_and_sync_collection, hc]

theorem drop_org_collection_lookup (n : String) (s : St) (m : String) :
    (drop_org_collection n s).2.db.collections m =
      if m = "org_" ++ n then none else s.db.collections m := by
  cases hc : s.db.collections ("org_" ++ n) with
  | none =>
    simp only [drop_org_collection, hc]
    by_cases hm : m = "org_" ++ n
    · rw [if_pos hm, hm, hc]
    · rw [if_neg hm]
  | some docs => simp only [drop_org_collection, hc]

theorem drop_org_collection_fields (n : String) (s : St) :
    (drop_org_collection n s).2.db.organizations = s.db.organizations ∧
    (drop_org_collection n s).2.db.admins = s.db.admins ∧
    (drop_org_collection n s).2.db.nextId = s.db.nextId := by
  cases hc : s.db.collections ("org_" ++ n) <;> simp [drop_org_collection, hc]

theorem apply_creds_fields (ca : Claim) (p : OrgUpdate) (s : St) :
    (apply_creds ca p s).db.organizations = s.db.organizations ∧
    (apply_creds ca p s).db.collections = s.db.collections ∧
    (apply_creds ca p s).db.nextId = s.db.nextId := by
  by_cases h : (truthy p.email || truthy p.password) = true <;> simp [apply_creds, h]

theorem apply_creds_trace (ca : Claim) (p : OrgUpdate) (s : St) :
    ∃ t, (apply_creds ca p s).trace = s.trace ++ t := by
  by_cases h : (truthy p.email || truthy p.password) = true
  · exact ⟨[Ev.updateAdminCreds ca.admin_id], by simp [apply_creds, h]⟩
  · exact ⟨[], by simp [apply_creds, h]⟩

theorem apply_creds_admins (ca : Claim) (p : OrgUpdate) (s : St) :
    (apply_creds ca p s).db.admins =
      updateFirst (fun a => a.aid == ca.admin_id) (creds_fields p) s.db.admins := by
  by_cases h : (truthy p.email || truthy p.password) = true
  · simp [apply_creds, h]
  · have he : truthy p.email = false := by
      revert h; cases truthy p.email <;> simp
    have hp : truthy p.password = false := by
      revert h; cases truthy p.password <;> simp
    have hid : ∀ a, creds_fields p a = a := by
      intro a
      simp [creds_fields, he, hp]
    simp only [apply_creds, h, if_neg]
    rw [show (updateFirst (fun a => a.aid == ca.admin_id) (creds_fields p) s.db.admins)
        = updateFirst (fun a => a.aid == ca.admin_id) (fun a => a) s.db.admins from ?_,
      updateFirst_id]
    · simp [h]
    · clear h
      induction s.db.admins with
      | nil => rfl
      | cons x xs ih =>
        unfold updateFirst
        rw [hid x, ih]

theorem creds_fields_org (p : OrgUpdate) (a : AdminRec) :
    (creds_fields p a).organization = a.organization := by
  unfold creds_fields
  by_cases he : truthy p.email = true <;> by_cases hp : truthy p.password = true <;>
    simp [he, hp]

theorem creds_fields_password_falsy (p : OrgUpdate) (a : AdminRec)
    (h : truthy p.password = false) :
    (creds_fields p a).password = a.password := by
  unfold creds_fields
  by_cases he : truthy p.email = true <;> simp [he, h]

theorem finish_update_st (n : String) (s : St) : (finish_update n s).2 = s := by
  cases h : findOrg s.db n <;> simp [finish_update, h]

theorem finish_update_found (n : String) (s : St) (o : OrgRec)
    (h : findOrg s.db n = some o) : finish_update n s = (.ok o, s) := by
  simp [finish_update, h]

theorem finish_update_ok_of_exists (n : String) (sX : St)
    (h : ∃ x ∈ sX.db.organizations, (x.organization_name == n) = true) :
    ∃ v, (finish_update n sX).1 = .ok v := by
  obtain ⟨o, ho⟩ := Option.isSome_iff_exists.mp (List.find?_isSome.mpr h)
  exact ⟨o, by rw [finish_update_found n sX o ho]⟩

theorem org_coll_ne {a b : String} (h : a ≠ b) :
    ("org_" ++ a : String) ≠ "org_" ++ b := by
  intro hEq
  apply h
  have hd := congrArg String.data hEq
  rw [String.data_append, String.data_append] at hd
  exact String.ext (List.append_cancel_left hd)

/-! ## Concrete fixtures shared by witnesses and counterexamples -/

/-- One tenant `acme` (admin id 0, registry id 1). -/
def stA : St := (create_organization ⟨"acme", "a@x.com", "secret1"⟩ st0).2

/-- Tenants `acme` and `other` (admin ids 0 and 2, registry ids 1 and 3). -/
def stAB : St := (create_organization ⟨"other", "b@x.com", "secret2"⟩ stA).2

/-! ## Claims -/

/-- C9: whenever the claim's tenant-link names no registry record (for
example a token minted before a rename, still carrying the old name),
`update_organization` fails with NotFound and returns the store exactly as
it was: no registry, admin, or collection state changes. -/
theorem update_stale_claim_not_found (ca : Claim) (p : OrgUpdate) (s : St)
    (h : findOrg s.db ca.org_id = none) :
    update_organization ca p s = (.error (.notFound "Organization not found"), s) :=
  update_notfound_eq ca p s h

/-- C9 witness: a claim carrying the unknown tenant name `ghost` against
the one-tenant store `stA`. -/
theorem update_stale_claim_not_found_witness :
    update_organization ⟨9, "ghost"⟩ ⟨"newname", none, none⟩ stA
      = (.error (.notFound "Organization not found"), stA) :=
  update_stale_claim_not_found ⟨9, "ghost"⟩ ⟨"newname", none, none⟩ stA rfl

/-- C4 counterexample: with tenants `acme` and `other` both present, the
claim bound to `acme` asking `update_organization` for the name `other`
(the only way the update API can mention another tenant) is answered with
AlreadyExists (HTTP 400), not Forbidden (HTTP 403); the store is returned
unchanged. -/
theorem rename_other_not_forbidden_cex :
    findOrg stAB.db "other" = some ⟨3, "other", "org_other", 2⟩ ∧
    (update_organization ⟨0, "acme"⟩ ⟨"other", none, none⟩ stAB).1
      = .error (.badRequest "New organization name already exists") ∧
    (update_organization ⟨0, "acme"⟩ ⟨"other", none, none⟩ stAB).1
      ≠ .error (.forbidden "You are not authorized to delete this organization") ∧
    (update_organization ⟨0, "acme"⟩ ⟨"other", none, none⟩ stAB).2 = stAB :=
  ⟨rfl, rfl, by
    have h : (update_organization ⟨0, "acme"⟩ ⟨"other", none, none⟩ stAB).1
        = Except.error (Err.badRequest "New organization name already exists") := rfl
    rw [h]
    simp, rfl⟩

/-- C4 (amended): a claim bound to one tenant attempting to delete a
different tenant receives Forbidden with the store unchanged, and the
authorization check precedes the existence check (no existence hypothesis
is needed); the update operation cannot address another tenant at all — a
rename naming an existing other tenant fails AlreadyExists, also leaving
the store (hence the tenant `other`) unchanged. -/
theorem delete_forbidden_rename_unaddressable :
    (∀ (n : String) (ca : Claim) (s : St), ca.org_id ≠ normalize n →
      delete_organization n ca s =
        (.error (.forbidden "You are not authorized to delete this organization"), s)) ∧
    (∀ (ca : Claim) (p : OrgUpdate) (s : St) (org other : OrgRec),
      findOrg s.db ca.org_id = some org →
      normalize p.organization_name ≠ ca.org_id →
      findOrg s.db (normalize p.organization_name) = some other →
      update_organization ca p s =
        (.error (.badRequest "New organization name already exists"), s)) := by
  constructor
  · intro n ca s h
    exact delete_forbidden_eq n ca s h
  · intro ca p s org other h1 hne h2
    exact update_rename_conflict_eq ca p s org other h1 hne h2

/-- C4 witness: the `acme` claim against tenant `other` in `stAB`: delete
is Forbidden and a rename request naming `other` is AlreadyExists. -/
theorem delete_forbidden_rename_unaddressable_witness :
    delete_organization "other" ⟨0, "acme"⟩ stAB =
      (.error (.forbidden "You are not authorized to delete this organization"), stAB) ∧
    update_organization ⟨0, "acme"⟩ ⟨"other", none, none⟩ stAB =
      (.error (.badRequest "New organization name already exists"), stAB) :=
  ⟨delete_forbidden_rename_unaddressable.1 "other" ⟨0, "acme"⟩ stAB (by decide),
   delete_forbidden_rename_unaddressable.2 ⟨0, "acme"⟩ ⟨"other", none, none⟩ stAB
     ⟨1, "acme", "org_acme", 0⟩ ⟨3, "other", "org_other", 2⟩ rfl (by decide) rfl⟩

/-- C2 counterexample: the names `"Acme"` and `"acme"` are distinct and
long enough for the `OrgCreate` validator, yet creating `"Acme"` and then
`"acme"` from the empty store has the second call fail with
AlreadyExists — so "for all valid names n1 ≠ n2 both creations succeed" is
false as stated; only normalized-distinct names succeed independently. -/
theorem create_raw_distinct_cex :
    ("Acme" : String) ≠ "acme" ∧
    ("Acme" : String).length ≥ 3 ∧ ("acme" : String).length ≥ 3 ∧
    (create_organization ⟨"Acme", "a@x.com", "secret1"⟩ st0).1
      = .ok ("acme", "org_acme", 0) ∧
    (create_organization ⟨"acme", "b@x.com", "secret2"⟩
        (create_organization ⟨"Acme", "a@x.com", "secret1"⟩ st0).2).1
      = .error (.badRequest "Organization already exists") :=
  ⟨by decide, by decide, by decide, rfl, rfl⟩

/-- C2 (amended): for names that are distinct after normalization and
absent from the registry, creating the first and then the second both
succeed; creating two names with the same normalized form has the second
call fail with AlreadyExists, return the store exactly as the first call
left it (no registry, admin, or collection change), and leave exactly one
registry record for that normalized name. -/
theorem create_distinct_ok_duplicate_rejected :
    (∀ (s : St) (n1 n2 e1 p1 e2 p2 : String),
      findOrg s.db (normalize n1) = none →
      findOrg s.db (normalize n2) = none →
      normalize n1 ≠ normalize n2 →
      (∃ v, (create_organization ⟨n1, e1, p1⟩ s).1 = .ok v) ∧
      (∃ v, (create_organization ⟨n2, e2, p2⟩
          (create_organization ⟨n1, e1, p1⟩ s).2).1 = .ok v)) ∧
    (∀ (s : St) (n1 n2 e1 p1 e2 p2 : String),
      findOrg s.db (normalize n1) = none →
      normalize n2 = normalize n1 →
      (create_organization ⟨n2, e2, p2⟩ (create_organization ⟨n1, e1, p1⟩ s).2).1
        = .error (.badRequest "Organization already exists") ∧
      (create_organization ⟨n2, e2, p2⟩ (create_organization ⟨n1, e1, p1⟩ s).2).2
        = (create_organization ⟨n1, e1, p1⟩ s).2 ∧
      ((create_organization ⟨n1, e1, p1⟩ s).2.db.organizations.countP
          (fun o => o.organization_name == normalize n1)) = 1) := by
  constructor
  · intro s n1 n2 e1 p1 e2 p2 h1 h2 hne
    obtain ⟨hok1, horgs1, -⟩ := create_absent_eq ⟨n1, e1, p1⟩ s h1
    refine ⟨⟨_, hok1⟩, ?_⟩
    have habs2 : findOrg (create_organization ⟨n1, e1, p1⟩ s).2.db (normalize n2) = none := by
      unfold findOrg at h2 ⊢
      rw [horgs1, List.find?_append, h2]
      simp [hne]
    obtain ⟨hok2, -, -⟩ := create_absent_eq ⟨n2, e2, p2⟩ _ habs2
    exact ⟨_, hok2⟩
  · intro s n1 n2 e1 p1 e2 p2 h1 heq
    obtain ⟨hok1, horgs1, -⟩ := create_absent_eq ⟨n1, e1, p1⟩ s h1
    have hfound : findOrg (create_organization ⟨n1, e1, p1⟩ s).2.db (normalize n2)
        = some { oid := s.db.nextId + 1, organization_name := normalize n1,
                 collection_name := "org_" ++ normalize n1, admin_id := s.db.nextId } := by
      unfold findOrg at h1 ⊢
      rw [horgs1, List.find?_append, heq, h1]
      simp
    have herr := create_present_eq ⟨n2, e2, p2⟩ _ _ hfound
    refine ⟨by rw [herr], by rw [herr], ?_⟩
    rw [horgs1, List.countP_append]
    have hz : s.db.organizations.countP (fun o => o.organization_name == normalize n1) = 0 := by
      rw [List.countP_eq_zero]
      intro o ho
      exact List.find?_eq_none.mp h1 o ho
    rw [hz]
    simp

/-- C2 witness: on the empty store, `Acme` then `Beta` both succeed, and
`Acme` then `ACME` fails with AlreadyExists leaving exactly one `acme`
record. -/
theorem create_distinct_ok_duplicate_rejected_witness :
    ((∃ v, (create_organization ⟨"Acme", "a@x.com", "pw1"⟩ st0).1 = .ok v) ∧
     (∃ v, (create_organization ⟨"Beta", "b@x.com", "pw2"⟩
        (create_organization ⟨"Acme", "a@x.com", "pw1"⟩ st0).2).1 = .ok v)) ∧
    ((create_organization ⟨"ACME", "c@x.com", "pw3"⟩
        (create_organization ⟨"Acme", "a@x.com", "pw1"⟩ st0).2).1
      = .error (.badRequest "Organization already exists") ∧
     (create_organization ⟨"ACME", "c@x.com", "pw3"⟩
        (create_organization ⟨"Acme", "a@x.com", "pw1"⟩ st0).2).2
      = (create_organization ⟨"Acme", "a@x.com", "pw1"⟩ st0).2 ∧
     ((create_organization ⟨"Acme", "a@x.com", "pw1"⟩ st0).2.db.organizations.countP
        (fun o => o.organization_name == normalize "Acme")) = 1) :=
  ⟨create_distinct_ok_duplicate_rejected.1 st0 "Acme" "Beta" "a@x.com" "pw1" "b@x.com" "pw2"
      rfl rfl (by decide),
   create_distinct_ok_duplicate_rejected.2 st0 "Acme" "ACME" "a@x.com" "pw1" "c@x.com" "pw3"
      rfl (by decide)⟩

/-- `stA` with two opaque documents in acme's data collection. -/
def stADocs : St :=
  { stA with db := { stA.db with
      collections := fun n => if n = "org_acme" then some [10, 20] else stA.db.collections n } }

/-- C1: a successful rename of tenant `t` (claim-bound) to a fresh name
`t'` leaves the collection derived from `t'` holding exactly the document
set `D` of `t`'s collection and removes the collection derived from `t`;
and when the source collection does not exist the migration step
`rename_and_sync_collection` succeeds as a no-op, changing nothing. -/
theorem rename_migrates_documents :
    (∀ (s : St) (ca : Claim) (p : OrgUpdate) (org : OrgRec) (D : List Nat),
      findOrg s.db ca.org_id = some org →
      findOrg s.db (normalize p.organization_name) = none →
      normalize p.organization_name ≠ ca.org_id →
      s.db.collections ("org_" ++ ca.org_id) = some D →
      (∃ v, (update_organization ca p s).1 = .ok v) ∧
      (update_organization ca p s).2.db.collections
          ("org_" ++ normalize p.organization_name) = some D ∧
      (update_organization ca p s).2.db.collections ("org_" ++ ca.org_id) = none) ∧
    (∀ (s : St) (old_n new_n : String),
      s.db.collections ("org_" ++ old_n) = none →
      rename_and_sync_collection old_n new_n s = s) := by
  constructor
  · intro s ca p org D h1 h2 hne hD
    rw [update_rename_eq ca p s org h1 hne h2]
    have hMc : (rename_meta_st s org.oid ca.admin_id
        (normalize p.organization_name)).db.collections
          ("org_" ++ ca.org_id) = some D := hD
    rw [rename_and_sync_some ca.org_id (normalize p.organization_name) _ D hMc]
    have hcoll_ne : ("org_" ++ normalize p.organization_name : String)
        ≠ "org_" ++ ca.org_id := org_coll_ne hne
    refine ⟨?_, ?_, ?_⟩
    · -- the final re-fetch finds the renamed record, so the call succeeds
      refine finish_update_ok_of_exists _ _ ?_
      have horg_mem : org ∈ s.db.organizations := List.mem_of_find?_eq_some h1
      obtain ⟨z, hz, y, hpy, hzy⟩ :=
        exists_updated_of_match (p := fun (o : OrgRec) => o.oid == org.oid)
          (f := fun (o : OrgRec) =>
            { o with
              organization_name := normalize p.organization_name,
              collection_name := "org_" ++ normalize p.organization_name })
          (l := s.db.organizations) ⟨org, horg_mem, by simp⟩
      have hzname : z.organization_name = normalize p.organization_name := by
        rw [hzy]
      rw [(apply_creds_fields ca p _).1]
      exact ⟨z, hz, by simp [hzname]⟩
    · rw [finish_update_st, (apply_creds_fields ca p _).2.1]
      show (if ("org_" ++ normalize p.organization_name) = "org_" ++ ca.org_id then none
          else if ("org_" ++ normalize p.organization_name)
              = "org_" ++ normalize p.organization_name then some D
          else _) = some D
      rw [if_neg hcoll_ne, if_pos rfl]
    · rw [finish_update_st, (apply_creds_fields ca p _).2.1]
      show (if ("org_" ++ ca.org_id : String) = "org_" ++ ca.org_id then none
          else _) = none
      rw [if_pos rfl]
  · intro s old_n new_n h
    exact rename_and_sync_none old_n new_n s h

/-- C1 witness: renaming `acme` (holding documents `[10, 20]`) to `beta`,
and the migration no-op on the empty store. -/
theorem rename_migrates_documents_witness :
    ((∃ v, (update_organization ⟨0, "acme"⟩ ⟨"beta", none, none⟩ stADocs).1 = .ok v) ∧
     (update_organization ⟨0, "acme"⟩ ⟨"beta", none, none⟩ stADocs).2.db.collections
        ("org_" ++ normalize "beta") = some [10, 20] ∧
     (update_organization ⟨0, "acme"⟩ ⟨"beta", none, none⟩ stADocs).2.db.collections
        ("org_" ++ "acme") = none) ∧
    rename_and_sync_collection "ghost" "beta" st0 = st0 :=
  ⟨rename_migrates_documents.1 stADocs ⟨0, "acme"⟩ ⟨"beta", none, none⟩
      ⟨1, "acme", "org_acme", 0⟩ [10, 20] rfl rfl (by decide) rfl,
   rename_migrates_documents.2 st0 "ghost" "beta" rfl⟩

/-- C3: for an existing tenant (with the registry and admin records unique
for their keys, as every reachable store has them), a successful
`delete_organization` removes the registry record, the admin record
referenced by the tenant's stored admin identity, and the derived data
collection, and a subsequent `get_organization` on the same name answers
NotFound. -/
theorem delete_removes_all_artifacts :
    ∀ (s : St) (name : String) (ca : Claim) (org : OrgRec),
      ca.org_id = normalize name →
      findOrg s.db (normalize name) = some org →
      s.db.organizations.countP (fun o => o.organization_name == normalize name) ≤ 1 →
      s.db.admins.countP (fun a => a.aid == org.admin_id) ≤ 1 →
      (delete_organization name ca s).1 = .ok ("deleted", normalize name) ∧
      findOrg (delete_organization name ca s).2.db (normalize name) = none ∧
      findAdminById (delete_organization name ca s).2.db org.admin_id = none ∧
      (delete_organization name ca s).2.db.collections ("org_" ++ normalize name) = none ∧
      (get_organization name (delete_organization name ca s).2).1
        = .error (.notFound "Organization not found") := by
  intro s name ca org hid h2 hc1 hc2
  have hif : ¬ca.org_id ≠ normalize name := fun hcon => hcon hid
  have hdrop_orgs := (drop_org_collection_fields (normalize name) s).1
  have hdrop_admins := (drop_org_collection_fields (normalize name) s).2.1
  have hfnone : findOrg (delete_organization name ca s).2.db (normalize name) = none := by
    simp only [delete_organization, if_neg hif, h2, hdrop_orgs]
    exact find?_eraseP_eq_none hc1
  refine ⟨?_, hfnone, ?_, ?_, ?_⟩
  · simp only [delete_organization, if_neg hif, h2]
  · simp only [delete_organization, if_neg hif, h2, hdrop_admins]
    exact find?_eraseP_eq_none hc2
  · simp only [delete_organization, if_neg hif, h2]
    rw [drop_org_collection_lookup, if_pos rfl]
  · simp only [get_organization, hfnone]

/-- C3 witness: deleting tenant `other` from the two-tenant store `stAB`
with its own claim. -/
theorem delete_removes_all_artifacts_witness :
    (delete_organization "other" ⟨2, "other"⟩ stAB).1 = .ok ("deleted", normalize "other") ∧
    findOrg (delete_organization "other" ⟨2, "other"⟩ stAB).2.db (normalize "other") = none ∧
    findAdminById (delete_organization "other" ⟨2, "other"⟩ stAB).2.db 2 = none ∧
    (delete_organization "other" ⟨2, "other"⟩ stAB).2.db.collections
        ("org_" ++ normalize "other") = none ∧
    (get_organization "other" (delete_organization "other" ⟨2, "other"⟩ stAB).2).1
      = .error (.notFound "Organization not found") :=
  delete_removes_all_artifacts stAB "other" ⟨2, "other"⟩ ⟨3, "other", "org_other", 2⟩
    rfl rfl (by decide) (by decide)

/-- C6: every rename performed by `update_organization` (here with the
source collection present so the migration actually runs) emits its writes
in exactly this order: registry metadata update, then admin tenant-link
update, then the bulk copy into the new collection, then the drop of the
old collection — the metadata writes strictly precede the migration, and
within the migration the copy completes before the drop (never
drop-then-copy).  `rest` covers the optional credential update that
follows. -/
theorem rename_metadata_before_migration_copy_before_drop :
    ∀ (s : St) (ca : Claim) (p : OrgUpdate) (org : OrgRec) (docs : List Nat),
      findOrg s.db ca.org_id = some org →
      findOrg s.db (normalize p.organization_name) = none →
      normalize p.organization_name ≠ ca.org_id →
      s.db.collections ("org_" ++ ca.org_id) = some docs →
      ∃ rest, (update_organization ca p s).2.trace =
        s.trace ++
          [Ev.updateOrgMeta org.oid (normalize p.organization_name),
           Ev.updateAdminLink ca.admin_id (normalize p.organization_name),
           Ev.copyOut ("org_" ++ ca.org_id) ("org_" ++ normalize p.organization_name),
           Ev.dropColl ("org_" ++ ca.org_id)] ++ rest := by
  intro s ca p org docs h1 h2 hne hD
  rw [update_rename_eq ca p s org h1 hne h2]
  have hMc : (rename_meta_st s org.oid ca.admin_id
      (normalize p.organization_name)).db.collections
        ("org_" ++ ca.org_id) = some docs := hD
  rw [rename_and_sync_some ca.org_id (normalize p.organization_name) _ docs hMc]
  obtain ⟨t, ht⟩ := apply_creds_trace ca p _
  rw [finish_update_st, ht]
  exact ⟨t, by simp [rename_meta_st]⟩

/-- C6 witness: the rename of `acme` (holding documents) to `beta`. -/
theorem rename_metadata_before_migration_copy_before_drop_witness :
    ∃ rest, (update_organization ⟨0, "acme"⟩ ⟨"beta", none, none⟩ stADocs).2.trace =
      stADocs.trace ++
        [Ev.updateOrgMeta 1 (normalize "beta"),
         Ev.updateAdminLink 0 (normalize "beta"),
         Ev.copyOut ("org_" ++ "acme") ("org_" ++ normalize "beta"),
         Ev.dropColl ("org_" ++ "acme")] ++ rest :=
  rename_metadata_before_migration_copy_before_drop stADocs ⟨0, "acme"⟩
    ⟨"beta", none, none⟩ ⟨1, "acme", "org_acme", 0⟩ [10, 20] rfl rfl (by decide) rfl

/-- C7: an update whose new name normalizes to the tenant's current name
performs no rename: registry records, the id counter, and all data
collections are untouched, and the admin list changes only by the one
credential `$set` — which never touches the tenant-link field and does
apply a truthy email or password from the same request. -/
theorem update_same_name_is_noop_but_creds_apply :
    ∀ (s : St) (ca : Claim) (p : OrgUpdate) (org : OrgRec),
      findOrg s.db ca.org_id = some org →
      normalize p.organization_name = ca.org_id →
      (update_organization ca p s).2.db.organizations = s.db.organizations ∧
      (update_organization ca p s).2.db.collections = s.db.collections ∧
      (update_organization ca p s).2.db.nextId = s.db.nextId ∧
      (update_organization ca p s).2.db.admins =
        updateFirst (fun a => a.aid == ca.admin_id) (creds_fields p) s.db.admins ∧
      (∀ a, (creds_fields p a).organization = a.organization) ∧
      (∀ a, truthy p.email = true → (creds_fields p a).email = p.email.getD "") ∧
      (∀ a, truthy p.password = true →
        (creds_fields p a).password = hash_password (p.password.getD "")) := by
  intro s ca p org h1 heq
  rw [update_same_eq ca p s org h1 heq, finish_update_st]
  refine ⟨(apply_creds_fields ca p s).1, (apply_creds_fields ca p s).2.1,
    (apply_creds_fields ca p s).2.2, apply_creds_admins ca p s,
    creds_fields_org p, ?_, ?_⟩
  · intro a he
    unfold creds_fields
    by_cases hp : truthy p.password = true <;> simp [he, hp]
  · intro a hp
    unfold creds_fields
    by_cases he : truthy p.email = true <;> simp [he, hp]

/-- C7 witness: updating `acme` under the spelling `" ACME "` with a new
email and password applies the credentials without renaming. -/
theorem update_same_name_is_noop_but_creds_apply_witness :
    (update_organization ⟨0, "acme"⟩ ⟨" ACME ", some "n@x.com", some "newpw"⟩ stA).2.db.organizations
        = stA.db.organizations ∧
    (update_organization ⟨0, "acme"⟩ ⟨" ACME ", some "n@x.com", some "newpw"⟩ stA).2.db.collections
        = stA.db.collections ∧
    (update_organization ⟨0, "acme"⟩ ⟨" ACME ", some "n@x.com", some "newpw"⟩ stA).2.db.nextId
        = stA.db.nextId ∧
    (update_organization ⟨0, "acme"⟩ ⟨" ACME ", some "n@x.com", some "newpw"⟩ stA).2.db.admins
        = updateFirst (fun a => a.aid == (0 : Nat))
            (creds_fields ⟨" ACME ", some "n@x.com", some "newpw"⟩) stA.db.admins ∧
    (∀ a, (creds_fields (⟨" ACME ", some "n@x.com", some "newpw"⟩ : OrgUpdate) a).organization
        = a.organization) ∧
    (∀ a, truthy (⟨" ACME ", some "n@x.com", some "newpw"⟩ : OrgUpdate).email = true →
      (creds_fields (⟨" ACME ", some "n@x.com", some "newpw"⟩ : OrgUpdate) a).email
        = (some "n@x.com").getD "") ∧
    (∀ a, truthy (⟨" ACME ", some "n@x.com", some "newpw"⟩ : OrgUpdate).password = true →
      (creds_fields (⟨" ACME ", some "n@x.com", some "newpw"⟩ : OrgUpdate) a).password
        = hash_password ((some "newpw").getD "")) :=
  update_same_name_is_noop_but_creds_apply stA ⟨0, "acme"⟩
    ⟨" ACME ", some "n@x.com", some "newpw"⟩ ⟨1, "acme", "org_acme", 0⟩ rfl rfl

/-- C10: an update whose password field is present but equal to `""` (a
falsy value in Python) behaves exactly like the same request with no
password at all — in particular no admin's stored password hash changes —
while every other part of the request (rename, email) is still applied. -/
theorem update_empty_password_ignored :
    ∀ (s : St) (ca : Claim) (p : OrgUpdate),
      p.password = some "" →
      update_organization ca p s =
        update_organization ca { p with password := none } s ∧
      (update_organization ca p s).2.db.admins.map (fun a => a.password) =
        s.db.admins.map (fun a => a.password) := by
  intro s ca p hpw
  have hp : truthy p.password = false := by rw [hpw]; rfl
  have htn : truthy (none : Option String) = false := rfl
  have hcf : ∀ a, creds_fields p a = creds_fields { p with password := none } a := by
    intro a
    unfold creds_fields
    simp only [hp, htn]
    simp
  have hac : ∀ sX : St, apply_creds ca p sX = apply_creds ca { p with password := none } sX := by
    intro sX
    unfold apply_creds
    simp only [hp, htn, Bool.or_false]
    rw [updateFirst_congr hcf]
  constructor
  · cases hF : findOrg s.db ca.org_id with
    | none =>
        rw [update_notfound_eq ca p s hF,
          update_notfound_eq ca { p with password := none } s hF]
    | some org =>
      by_cases hne : normalize p.organization_name ≠ ca.org_id
      · cases hF2 : findOrg s.db (normalize p.organization_name) with
        | some other =>
            rw [update_rename_conflict_eq ca p s org other hF hne hF2,
              update_rename_conflict_eq ca { p with password := none } s org other hF hne hF2]
        | none =>
            rw [update_rename_eq ca p s org hF hne hF2,
              update_rename_eq ca { p with password := none } s org hF hne hF2, hac _]
      · push_neg at hne
        rw [update_same_eq ca p s org hF hne,
          update_same_eq ca { p with password := none } s org hF hne, hac s]
  · cases hF : findOrg s.db ca.org_id with
    | none => rw [update_notfound_eq ca p s hF]
    | some org =>
      by_cases hne : normalize p.organization_name ≠ ca.org_id
      · cases hF2 : findOrg s.db (normalize p.organization_name) with
        | some other => rw [update_rename_conflict_eq ca p s org other hF hne hF2]
        | none =>
            rw [update_rename_eq ca p s org hF hne hF2, finish_update_st,
              apply_creds_admins,
              map_updateFirst_of_preserve (fun a _ => creds_fields_password_falsy p a hp),
              (rename_and_sync_fields ca.org_id (normalize p.organization_name) _).2.1]
            simp only [rename_meta_st]
            exact map_updateFirst_of_preserve (p := fun a => a.aid == ca.admin_id)
              (f := fun a => { a with organization := normalize p.organization_name })
              (g := fun a => a.password) (fun a _ => rfl) s.db.admins
      · push_neg at hne
        rw [update_same_eq ca p s org hF hne, finish_update_st, apply_creds_admins,
          map_updateFirst_of_preserve (fun a _ => creds_fields_password_falsy p a hp)]

/-- C10 witness: updating `acme` with a new email and the empty-string
password. -/
theorem update_empty_password_ignored_witness :
    update_organization ⟨0, "acme"⟩ ⟨"acme", some "e@x.com", some ""⟩ stA =
      update_organization ⟨0, "acme"⟩
        { (⟨"acme", some "e@x.com", some ""⟩ : OrgUpdate) with password := none } stA ∧
    (update_organization ⟨0, "acme"⟩ ⟨"acme", some "e@x.com", some ""⟩ stA).2.db.admins.map
        (fun a => a.password) =
      stA.db.admins.map (fun a => a.password) :=
  update_empty_password_ignored stA ⟨0, "acme"⟩ ⟨"acme", some "e@x.com", some ""⟩ rfl

end OrgMgmt

namespace OrgMgmt

theorem apply_creds_payload_name (ca : Claim) (n n' : String) (e : Option String)
    (pw : Option String) (sX : St) :
    apply_creds ca ⟨n, e, pw⟩ sX = apply_creds ca ⟨n', e, pw⟩ sX := rfl

/-- C8: every lifecycle operation treats a raw name and its trimmed,
lowercased form identically (normalization is applied before any lookup
or mutation, and it is idempotent); concretely, after creating `"Acme"`,
`get` under the spellings `"acme"`, `"Acme"` and `" ACME "` all resolve to
the same record, and creating any respelling such as `" ACME "` fails with
AlreadyExists. -/
theorem ops_respect_normalization :
    (∀ (s : St) (n e pw : String),
      create_organization ⟨n, e, pw⟩ s = create_organization ⟨normalize n, e, pw⟩ s) ∧
    (∀ (s : St) (n : String),
      get_organization n s = get_organization (normalize n) s) ∧
    (∀ (s : St) (ca : Claim) (n : String) (e pw : Option String),
      update_organization ca ⟨n, e, pw⟩ s = update_organization ca ⟨normalize n, e, pw⟩ s) ∧
    (∀ (s : St) (n : String) (ca : Claim),
      delete_organization n ca s = delete_organization (normalize n) ca s) ∧
    ((create_organization ⟨"Acme", "a@x.com", "secret1"⟩ st0).1
      = .ok ("acme", "org_acme", 0)) ∧
    (get_organization "acme" (create_organization ⟨"Acme", "a@x.com", "secret1"⟩ st0).2
      = get_organization "Acme" (create_organization ⟨"Acme", "a@x.com", "secret1"⟩ st0).2) ∧
    (get_organization "Acme" (create_organization ⟨"Acme", "a@x.com", "secret1"⟩ st0).2
      = get_organization " ACME " (create_organization ⟨"Acme", "a@x.com", "secret1"⟩ st0).2) ∧
    ((get_organization "acme" (create_organization ⟨"Acme", "a@x.com", "secret1"⟩ st0).2).1
      = .ok ⟨1, "acme", "org_acme", 0⟩) ∧
    ((create_organization ⟨" ACME ", "b@x.com", "secret2"⟩
        (create_organization ⟨"Acme", "a@x.com", "secret1"⟩ st0).2).1
      = .error (.badRequest "Organization already exists")) := by
  refine ⟨?_, ?_, ?_, ?_, rfl, rfl, rfl, rfl, rfl⟩
  · intro s n e pw
    simp only [create_organization]
    rw [normalize_idem]
  · intro s n
    simp only [get_organization]
    rw [normalize_idem]
  · intro s ca n e pw
    simp only [update_organization, normalize_idem,
      apply_creds_payload_name ca (normalize n) n e pw]
  · intro s n ca
    simp only [delete_organization, normalize_idem]

end OrgMgmt

namespace OrgMgmt

theorem delete_notfound_eq (n : String) (ca : Claim) (s : St)
    (hid : ca.org_id = normalize n)
    (h : findOrg s.db (normalize n) = none) :
    delete_organization n ca s = (.error (.notFound "Organization not found"), s) := by
  have hif : ¬ca.org_id ≠ normalize n := fun hcon => hcon hid
  simp only [delete_organization, if_neg hif, h]

/-- The registry invariant of the spec's data model: collection names are
derived from the (normalization-fixed) tenant name by the `org_` rule, and
tenant names are unique. -/
def Inv (db : DB) : Prop :=
  (db.organizations.map (fun o => o.organization_name)).Nodup ∧
  ∀ o ∈ db.organizations,
    o.collection_name = "org_" ++ o.organization_name ∧
    normalize o.organization_name = o.organization_name

theorem Inv_of_orgs_eq {db1 db2 : DB}
    (h : db1.organizations = db2.organizations) (hI : Inv db2) : Inv db1 := by
  unfold Inv
  rw [h]
  exact hI

theorem name_not_mem_of_find_none {l : List OrgRec} {n : String}
    (h : l.find? (fun o => o.organization_name == n) = none) :
    n ∉ l.map (fun o => o.organization_name) := by
  intro hmem
  rcases List.mem_map.mp hmem with ⟨o, ho, hname⟩
  apply List.find?_eq_none.mp h o ho
  rw [hname]
  exact beq_self_eq_true n

/-- C5: the lifecycle operations preserve the registry invariant: every
registry record's `collection_name` is `org_` ++ its (normalized)
`organization_name`, and there is at most one record per (normalized)
name. -/
theorem lifecycle_preserves_registry_invariant :
    ∀ s : St, Inv s.db →
      (∀ p, Inv (create_organization p s).2.db) ∧
      (∀ n, Inv (get_organization n s).2.db) ∧
      (∀ ca p, Inv (update_organization ca p s).2.db) ∧
      (∀ n ca, Inv (delete_organization n ca s).2.db) := by
  intro s hInv
  refine ⟨?_, ?_, ?_, ?_⟩
  · intro p
    cases hF : findOrg s.db (normalize p.organization_name) with
    | some org =>
      rw [create_present_eq p s org hF]
      exact hInv
    | none =>
      have horgs := (create_absent_eq p s hF).2.1
      unfold Inv
      rw [horgs, List.map_append]
      constructor
      · rw [List.nodup_append]
        refine ⟨hInv.1, List.nodup_singleton _, ?_⟩
        intro x hx hx1
        rcases List.mem_singleton.mp hx1 with rfl
        exact name_not_mem_of_find_none hF hx
      · intro o ho
        rcases List.mem_append.mp ho with h1 | h1
        · exact hInv.2 o h1
        · rcases List.mem_singleton.mp h1 with rfl
          exact ⟨rfl, normalize_idem _⟩
  · intro n
    cases hF : findOrg s.db (normalize n) with
    | some org =>
      have hsame : (get_organization n s).2 = s := by simp [get_organization, hF]
      rw [hsame]
      exact hInv
    | none =>
      have hsame : (get_organization n s).2 = s := by simp [get_organization, hF]
      rw [hsame]
      exact hInv
  · intro ca p
    cases hF : findOrg s.db ca.org_id with
    | none =>
      rw [update_notfound_eq ca p s hF]
      exact hInv
    | some org =>
      by_cases hne : normalize p.organization_name ≠ ca.org_id
      · cases hF2 : findOrg s.db (normalize p.organization_name) with
        | some other =>
          rw [update_rename_conflict_eq ca p s org other hF hne hF2]
          exact hInv
        | none =>
          have horgs : (update_organization ca p s).2.db.organizations =
              updateFirst (fun o => o.oid == org.oid)
                (fun o => { o with
                  organization_name := normalize p.organization_name,
                  collection_name := "org_" ++ normalize p.organization_name })
                s.db.organizations := by
            rw [update_rename_eq ca p s org hF hne hF2, finish_update_st,
              (apply_creds_fields ca p _).1,
              (rename_and_sync_fields ca.org_id (normalize p.organization_name) _).1]
            simp only [rename_meta_st]
          unfold Inv
          rw [horgs]
          constructor
          · refine nodup_map_updateFirst (g := fun (o : OrgRec) => o.organization_name)
              (c := normalize p.organization_name)
              (f := fun (o : OrgRec) =>
                { o with
                  organization_name := normalize p.organization_name,
                  collection_name := "org_" ++ normalize p.organization_name })
              (fun y hy => rfl) (name_not_mem_of_find_none hF2) hInv.1
          · intro o ho
            rcases mem_updateFirst ho with h1 | ⟨y, hy, hpy, rfl⟩
            · exact hInv.2 o h1
            · exact ⟨rfl, normalize_idem _⟩
      · push_neg at hne
        have horgs : (update_organization ca p s).2.db.organizations =
            s.db.organizations := by
          rw [update_same_eq ca p s org hF hne, finish_update_st,
            (apply_creds_fields ca p s).1]
        unfold Inv
        rw [horgs]
        exact hInv
  · intro n ca
    by_cases hid : ca.org_id = normalize n
    · cases hF : findOrg s.db (normalize n) with
      | none =>
        rw [delete_notfound_eq n ca s hid hF]
        exact hInv
      | some org =>
        have hif : ¬ca.org_id ≠ normalize n := fun hcon => hcon hid
        have horgs : (delete_organization n ca s).2.db.organizations =
            s.db.organizations.eraseP (fun o => o.organization_name == normalize n) := by
          simp only [delete_organization, if_neg hif, hF,
            (drop_org_collection_fields (normalize n) s).1]
        unfold Inv
        rw [horgs]
        constructor
        · exact List.Nodup.sublist (List.Sublist.map _ (List.eraseP_sublist _)) hInv.1
        · intro o ho
          exact hInv.2 o (List.mem_of_mem_eraseP ho)
    · rw [delete_forbidden_eq n ca s hid]
      exact hInv

/-- C5 witness: the invariant holds of the empty store and is carried
through one instance of each operation. -/
theorem Inv_st0 : Inv st0.db :=
  ⟨List.nodup_nil, fun o ho => absurd ho (List.not_mem_nil o)⟩

theorem lifecycle_preserves_registry_invariant_witness :
    Inv (create_organization ⟨"Acme", "a@x.com", "pw1"⟩ st0).2.db ∧
    Inv (get_organization "acme" st0).2.db ∧
    Inv (update_organization ⟨0, "acme"⟩ ⟨"beta", none, none⟩ st0).2.db ∧
    Inv (delete_organization "acme" ⟨0, "acme"⟩ st0).2.db :=
  ⟨(lifecycle_preserves_registry_invariant st0 Inv_st0).1 ⟨"Acme", "a@x.com", "pw1"⟩,
   (lifecycle_preserves_registry_invariant st0 Inv_st0).2.1 "acme",
   (lifecycle_preserves_registry_invariant st0 Inv_st0).2.2.1 ⟨0, "acme"⟩
     ⟨"beta", none, none⟩,
   (lifecycle_preserves_registry_invariant st0 Inv_st0).2.2.2 "acme" ⟨0, "acme"⟩⟩

end OrgMgmt
